import Mathlib

/-!
Verification of the navitia POI model (Rust crate `navitia-poi-model`).

The development shallowly embeds `src/objects.rs` and `src/io.rs`:

* `f64` coordinates are modelled by their exact rational values (`ℚ`);
  the code only stores, compares and copies coordinates, never computes
  with them, so comparisons with the exactly representable bounds
  `0`, `±90`, `±180` coincide with the rational comparisons.
* `BTreeMap`/`HashMap` collections are modelled as association lists
  (`List (String × α)`) with `lookupA`/`insertA` giving the keyed-map
  semantics (insert overwrites the entry with the same key).
* The zip container and the CSV layer are the external collaborators of
  the crate; the embedding works at the level of the decoded records
  (`PoiRecord`, `PoiTypeRecord`, `PoiProperty`), except for the
  `poi_visible` column where the custom `ser_from_bool`/`de_from_u8`
  (de)serializers of `io.rs` are embedded down to the textual field.
* Fallible Rust functions (`anyhow::Result`) become `Except String`.
-/

deriving instance DecidableEq for Except

namespace NavitiaPoi

/-- Association-list lookup: the map semantics of `BTreeMap::get` /
`HashMap::get` on the embedded collections. -/
def lookupA {α : Type} : List (String × α) → String → Option α
  | [], _ => none
  | (k1, v) :: rest, k => if k = k1 then some v else lookupA rest k

/-- Association-list insert with overwrite: the semantics of
`BTreeMap::insert` / `HashMap::insert` (an existing entry with the same
key is replaced, a new key is added). -/
def insertA {α : Type} : List (String × α) → String → α → List (String × α)
  | [], k, v => [(k, v)]
  | (k1, v1) :: rest, k, v =>
    if k1 = k then (k, v) :: rest else (k1, v1) :: insertA rest k v

/-- The keys of an embedded map. -/
def keysA {α : Type} (m : List (String × α)) : List String := m.map Prod.fst

/-- First-wins choice on options, used to state keyed-map unions. -/
def orElseO {α : Type} : Option α → Option α → Option α
  | some v, _ => some v
  | none, o => o

/-- The last element of a list satisfying `p`, if any (used to state the
last-wins overwrite semantics of keyed collection of rows). -/
def lastMatch {ρ : Type} (p : ρ → Bool) : List ρ → Option ρ
  | [] => none
  | r :: rest => orElseO (lastMatch p rest) (if p r then some r else none)

/-- `Coord` of `objects.rs`: a longitude/latitude pair (`f64` modelled by
its exact rational value). -/
structure Coord where
  lon : ℚ
  lat : ℚ
deriving Repr, DecidableEq

/-- `Coord::new(lon, lat)`: stores the values verbatim. -/
def Coord.new (lon lat : ℚ) : Coord := ⟨lon, lat⟩

/-- `Coord::is_default`: `self.lat() == 0. && self.lon() == 0.`. -/
def Coord.is_default (c : Coord) : Bool :=
  decide (c.lat = 0) && decide (c.lon = 0)

/-- `Coord::is_valid`:
`!is_default && -90 <= lat && lat <= 90 && -180 <= lon && lon <= 180`. -/
def Coord.is_valid (c : Coord) : Bool :=
  ! c.is_default
    && decide ((-90 : ℚ) ≤ c.lat) && decide (c.lat ≤ (90 : ℚ))
    && decide ((-180 : ℚ) ≤ c.lon) && decide (c.lon ≤ (180 : ℚ))

/-- `Property` of `objects.rs`. -/
structure Property where
  key : String
  value : String
deriving Repr, DecidableEq

/-- `Poi` of `objects.rs`; `properties: BTreeMap<String, String>` is the
embedded keyed map, `weight: u32` a natural number (only copied, never
computed with). -/
structure Poi where
  id : String
  name : String
  coord : Coord
  poi_type_id : String
  properties : List (String × String)
  visible : Bool
  weight : Nat
deriving Repr, DecidableEq

/-- `PoiType` of `objects.rs`. -/
structure PoiType where
  id : String
  name : String
deriving Repr, DecidableEq

/-- `Model` of `objects.rs`: `pois: BTreeMap<String, Poi>` and
`poi_types: HashMap<String, PoiType>`, both embedded as association
lists in iteration order. -/
structure Model where
  pois : List (String × Poi)
  poi_types : List (String × PoiType)
deriving Repr, DecidableEq

/-- One step of the `try_fold` over `rhs.pois` in `Model::try_merge`:
an occupied entry is a fatal conflict, a vacant entry is inserted. -/
def mergePoisStep (acc : List (String × Poi)) (kv : String × Poi) :
    Except String (List (String × Poi)) :=
  match lookupA acc kv.1 with
  | some _ => .error ("POI with id " ++ kv.1 ++ " already in the model")
  | none => .ok (acc ++ [kv])

/-- The `try_fold` over `rhs.pois` in `Model::try_merge`. -/
def mergePois (acc : List (String × Poi)) :
    List (String × Poi) → Except String (List (String × Poi))
  | [] => .ok acc
  | kv :: rest =>
    match mergePoisStep acc kv with
    | .error e => .error e
    | .ok acc2 => mergePois acc2 rest

/-- One step of the `try_fold` over `rhs.poi_types` in
`Model::try_merge`: an occupied entry equal to the incoming value is
kept, a differing one is a fatal conflict, a vacant entry is inserted. -/
def mergeTypesStep (acc : List (String × PoiType)) (kv : String × PoiType) :
    Except String (List (String × PoiType)) :=
  match lookupA acc kv.1 with
  | some existing =>
    if existing = kv.2 then .ok acc
    else .error ("Trying to override POI Type with id " ++ kv.1)
  | none => .ok (acc ++ [kv])

/-- The `try_fold` over `rhs.poi_types` in `Model::try_merge`. -/
def mergeTypes (acc : List (String × PoiType)) :
    List (String × PoiType) → Except String (List (String × PoiType))
  | [] => .ok acc
  | kv :: rest =>
    match mergeTypesStep acc kv with
    | .error e => .error e
    | .ok acc2 => mergeTypes acc2 rest

/-- `Model::try_merge` of `objects.rs`: fold `rhs.pois` into
`self.pois` (any id collision is fatal), then `rhs.poi_types` into
`self.poi_types` (identical redeclaration allowed, differing one fatal). -/
def Model.try_merge (self rhs : Model) : Except String Model :=
  match mergePois self.pois rhs.pois with
  | .error e => .error e
  | .ok merged_pois =>
    match mergeTypes self.poi_types rhs.poi_types with
    | .error e => .error e
    | .ok merged_poi_types =>
      .ok { pois := merged_pois, poi_types := merged_poi_types }

/-- `ser_from_bool` of `io.rs`: `serializer.serialize_u8(*v as u8)`. -/
def ser_from_bool (v : Bool) : Nat := if v then 1 else 0

/-- The numeric value of a decimal digit character, if it is one. -/
def digitVal (c : Char) : Option Nat :=
  if '0' ≤ c ∧ c ≤ '9' then some (c.toNat - '0'.toNat) else none

/-- Decimal parse of a character list (accumulator form). -/
def parseNatDigits : Nat → List Char → Option Nat
  | acc, [] => some acc
  | acc, c :: rest =>
    match digitVal c with
    | none => none
    | some d => parseNatDigits (acc * 10 + d) rest

/-- The `u8::deserialize` step inside `de_from_u8`: parse the textual
CSV field as a `u8` (the serde/csv collaborator's decimal parser),
failing on empty, non-numeric or out-of-range input. -/
def parse_u8 (s : String) : Except String Nat :=
  match s.data with
  | [] => .error ("err invalid u8 field: " ++ s)
  | cs =>
    match parseNatDigits 0 cs with
    | none => .error ("err invalid u8 field: " ++ s)
    | some n => if n < 256 then .ok n else .error ("err invalid u8 field: " ++ s)

/-- `de_from_u8` of `io.rs`: `let i = u8::deserialize(..)?; Ok(i != 0)`. -/
def de_from_u8 (s : String) : Except String Bool :=
  match parse_u8 s with
  | .ok i => .ok (decide (i ≠ 0))
  | .error e => .error e

/-- `PoiRecord` of `io.rs`: the decoded row shape of "poi.txt". -/
structure PoiRecord where
  id : String
  type_id : String
  name : String
  lat : ℚ
  lon : ℚ
  weight : Nat
  visible : Bool
deriving Repr, DecidableEq

/-- `impl From<&Poi> for PoiRecord`. -/
def PoiRecord.fromPoi (poi : Poi) : PoiRecord :=
  { id := poi.id
    type_id := poi.poi_type_id
    name := poi.name
    lat := poi.coord.lat
    lon := poi.coord.lon
    visible := poi.visible
    weight := poi.weight }

/-- `impl From<PoiRecord> for Poi`: the property map starts empty. -/
def Poi.fromRecord (record : PoiRecord) : Poi :=
  { id := record.id
    name := record.name
    coord := Coord.new record.lon record.lat
    poi_type_id := record.type_id
    properties := []
    visible := record.visible
    weight := record.weight }

/-- A raw "poi.txt" row with the `poi_visible` column kept textual, to
embed the custom (de)serializers of `io.rs` down to the field level
(the other columns use derived serde codecs and stay typed). -/
structure RawPoiRecord where
  poi_id : String
  poi_type_id : String
  poi_name : String
  poi_lat : ℚ
  poi_lon : ℚ
  poi_weight : Nat
  poi_visible : String
deriving Repr, DecidableEq

/-- Serialization of a `PoiRecord` to a raw row: `poi_visible` is written
through `ser_from_bool` as the decimal text of the `u8`. -/
def PoiRecord.toRaw (r : PoiRecord) : RawPoiRecord :=
  { poi_id := r.id
    poi_type_id := r.type_id
    poi_name := r.name
    poi_lat := r.lat
    poi_lon := r.lon
    poi_weight := r.weight
    poi_visible := toString (ser_from_bool r.visible) }

/-- Deserialization of a raw row: `poi_visible` goes through
`de_from_u8`; a failure there fails the whole row. -/
def RawPoiRecord.decode (r : RawPoiRecord) : Except String PoiRecord :=
  match de_from_u8 r.poi_visible with
  | .error e => .error e
  | .ok v =>
    .ok { id := r.poi_id
          type_id := r.poi_type_id
          name := r.poi_name
          lat := r.poi_lat
          lon := r.poi_lon
          weight := r.poi_weight
          visible := v }

/-- `PoiTypeRecord` of `io.rs`: the decoded row shape of "poi_type.txt". -/
structure PoiTypeRecord where
  id : String
  name : String
deriving Repr, DecidableEq

/-- `impl From<PoiType> for PoiTypeRecord`. -/
def PoiTypeRecord.fromPoiType (poi_type : PoiType) : PoiTypeRecord :=
  { id := poi_type.id, name := poi_type.name }

/-- `impl From<PoiTypeRecord> for PoiType`. -/
def PoiType.fromRecord (record : PoiTypeRecord) : PoiType :=
  { id := record.id, name := record.name }

/-- `PoiProperty` of `io.rs`: the row shape of "poi_properties.txt". -/
structure PoiProperty where
  poi_id : String
  key : String
  value : String
deriving Repr, DecidableEq

/-- The rows of "poi_properties.txt" written by `write_model_to_path`:
for each Poi in iteration order, one row per property in key order. -/
def propRows : List (String × Poi) → List PoiProperty
  | [] => []
  | kv :: rest =>
    kv.2.properties.map (fun p => ⟨kv.2.id, p.1, p.2⟩) ++ propRows rest

/-- `.sorted_by_key(|pt| pt.0)` over the `poi_types` map entries. -/
def sortTypes (l : List (String × PoiType)) : List (String × PoiType) :=
  List.insertionSort (fun a b => a.1 ≤ b.1) l

/-- The three tables written into the zip archive (the zip/CSV container
itself is the external collaborator). -/
structure ModelTables where
  poi_txt : List PoiRecord
  poi_type_txt : List PoiTypeRecord
  poi_properties_txt : List PoiProperty
deriving Repr, DecidableEq

/-- `write_model_to_path` of `io.rs`, at the record level: "poi.txt" in
`pois` iteration order, "poi_type.txt" sorted by id, and the flattened
property rows. -/
def write_model_to_path (model : Model) : ModelTables :=
  { poi_txt := model.pois.map (fun kv => PoiRecord.fromPoi kv.2)
    poi_type_txt :=
      (sortTypes model.poi_types).map (fun kv => PoiTypeRecord.fromPoiType kv.2)
    poi_properties_txt := propRows model.pois }

/-- The `collect` of decoded "poi.txt" rows into `BTreeMap<String, Poi>`,
keyed by `poi.id` (duplicate keys overwrite, last wins). -/
def loadPois (recs : List PoiRecord) : List (String × Poi) :=
  recs.foldl (fun acc rec => insertA acc rec.id (Poi.fromRecord rec)) []

/-- The `collect` of decoded "poi_type.txt" rows into
`HashMap<String, PoiType>`, keyed by id (duplicate keys overwrite). -/
def loadTypes (recs : List PoiTypeRecord) : List (String × PoiType) :=
  recs.foldl (fun acc rec => insertA acc rec.id (PoiType.fromRecord rec)) []

/-- One "poi_properties.txt" row applied to the loaded `pois` map:
`pois.get_mut(&poi_id)` fails with the referential error when the id is
unknown, else `poi.properties.insert(key, value)`. -/
def insertPropertyRow (path : String) (acc : List (String × Poi))
    (row : PoiProperty) : Except String (List (String × Poi)) :=
  match lookupA acc row.poi_id with
  | none =>
    .error ("in file '" ++ path ++ "', cannot find poi '" ++ row.poi_id
      ++ "' for property insertion")
  | some poi =>
    .ok (insertA acc row.poi_id
      { poi with properties := insertA poi.properties row.key row.value })

/-- The `try_for_each` over the "poi_properties.txt" rows. -/
def applyProps (path : String) (acc : List (String × Poi)) :
    List PoiProperty → Except String (List (String × Poi))
  | [] => .ok acc
  | row :: rest =>
    match insertPropertyRow path acc row with
    | .error e => .error e
    | .ok acc2 => applyProps path acc2 rest

/-- `load_model_from_path` of `io.rs`, at the record level: build the two
keyed maps, then apply the property rows when the "poi_properties.txt"
entry exists (`none` models the absent entry, which is not an error). -/
def load_model_from_path (path : String) (poi_txt : List PoiRecord)
    (poi_type_txt : List PoiTypeRecord)
    (poi_properties_txt : Option (List PoiProperty)) : Except String Model :=
  let pois := loadPois poi_txt
  let poi_types := loadTypes poi_type_txt
  match poi_properties_txt with
  | none => .ok { pois := pois, poi_types := poi_types }
  | some rows =>
    match applyProps path pois rows with
    | .error e => .error e
    | .ok pois2 => .ok { pois := pois2, poi_types := poi_types }

/-- `Model::try_from_path` (delegates to `io::load_model_from_path`). -/
def Model.try_from_path (path : String) (poi_txt : List PoiRecord)
    (poi_type_txt : List PoiTypeRecord)
    (poi_properties_txt : Option (List PoiProperty)) : Except String Model :=
  load_model_from_path path poi_txt poi_type_txt poi_properties_txt

/-- `Model::save_to_path` (delegates to `io::write_model_to_path`). -/
def Model.save_to_path (model : Model) : ModelTables :=
  write_model_to_path model

/-- Key consistency: every map entry's stored value carries the entry's
key as its id (maps built by load are keyed by the value's own id). -/
def Model.keyConsistent (m : Model) : Prop :=
  (∀ kv ∈ m.pois, kv.2.id = kv.1) ∧ (∀ kv ∈ m.poi_types, kv.2.id = kv.1)

/-- Well-formed entities: the keyed maps have no duplicate keys, are key
consistent, and each Poi's property map has no duplicate keys (all of
which hold of genuine `BTreeMap`/`HashMap` contents). -/
def Model.WellFormed (m : Model) : Prop :=
  (keysA m.pois).Nodup ∧ (keysA m.poi_types).Nodup ∧ m.keyConsistent ∧
    ∀ kv ∈ m.pois, (keysA kv.2.properties).Nodup

/-- A Poi as decoded from its "poi.txt" row, before property insertion:
all fields as stored, the property map still empty. -/
def stripP (p : Poi) : Poi := { p with properties := [] }

/-- `stripP` on a map entry. -/
def stripKV (kv : String × Poi) : String × Poi := (kv.1, stripP kv.2)

/-- The value stored for key `k` in the property map of the Poi stored
under id `i`, if any. -/
def propAt (pois : List (String × Poi)) (i k : String) : Option String :=
  match lookupA pois i with
  | none => none
  | some p => lookupA p.properties k

/-- A concrete Poi for instance checks. -/
def poiA : Poi :=
  { id := "p1", name := "Poi one", coord := ⟨1, 2⟩, poi_type_id := "t1",
    properties := [("k1", "v1")], visible := true, weight := 3 }

/-- A second concrete Poi for instance checks. -/
def poiB : Poi :=
  { id := "p2", name := "Poi two", coord := ⟨3, 4⟩, poi_type_id := "t2",
    properties := [], visible := false, weight := 0 }

/-- A concrete PoiType for instance checks. -/
def typeA : PoiType := ⟨"t1", "Cafe"⟩

/-- A second concrete PoiType for instance checks. -/
def typeB : PoiType := ⟨"t2", "Museum"⟩

/-- A concrete Model for instance checks. -/
def modelA : Model := ⟨[("p1", poiA)], [("t1", typeA)]⟩

/-- A concrete Model with POI ids and PoiType ids disjoint from
`modelA`'s. -/
def modelB : Model := ⟨[("p2", poiB)], [("t2", typeB)]⟩

/-- A concrete Model sharing the POI id "p1" with `modelA` (with an
identical stored Poi value). -/
def modelA2 : Model := ⟨[("p1", poiA)], []⟩

/-- A concrete Model sharing the PoiType id "t1" with `modelA` under a
different name. -/
def modelD : Model :=
  ⟨[("p3", { poiB with id := "p3" })], [("t1", ⟨"t1", "Coffee Shop"⟩)]⟩

/-- The result of merging `modelA` with `modelB`. -/
def mergedAB : Model :=
  ⟨[("p1", poiA), ("p2", poiB)], [("t1", typeA), ("t2", typeB)]⟩

/-- A concrete "poi.txt" record for instance checks. -/
def recP1 : PoiRecord :=
  { id := "p1", type_id := "t1", name := "n", lat := 2, lon := 1,
    weight := 0, visible := true }

/-- A "poi_type.txt" table with a duplicated id. -/
def dupTypeRecs : List PoiTypeRecord := [⟨"t1", "Cafe"⟩, ⟨"t1", "Bar"⟩]

/-- A "poi_properties.txt" table with a duplicated (poi_id, key) pair. -/
def dupPropRows : List PoiProperty := [⟨"p1", "k", "v1"⟩, ⟨"p1", "k", "v2"⟩]

/-- The Poi of `loadedDup`: `recP1` decoded, with the last property row
for the duplicated key. -/
def loadedDupPoi : Poi :=
  { id := "p1", name := "n", coord := ⟨1, 2⟩, poi_type_id := "t1",
    properties := [("k", "v2")], visible := true, weight := 0 }

/-- The Model loaded from `[recP1]`, `dupTypeRecs` and `dupPropRows`:
the duplicated PoiType id and property key both keep the last row. -/
def loadedDup : Model :=
  ⟨[("p1", loadedDupPoi)], [("t1", ⟨"t1", "Bar"⟩)]⟩

/-! ### Association-list map lemmas -/

@[simp]
theorem keysA_nil {α : Type} : keysA ([] : List (String × α)) = [] := rfl

@[simp]
theorem keysA_cons {α : Type} (kv : String × α) (rest : List (String × α)) :
    keysA (kv :: rest) = kv.1 :: keysA rest := rfl

@[simp]
theorem keysA_append {α : Type} (m1 m2 : List (String × α)) :
    keysA (m1 ++ m2) = keysA m1 ++ keysA m2 := List.map_append _ _ _

@[simp]
theorem orElseO_some {α : Type} (v : α) (o : Option α) :
    orElseO (some v) o = some v := rfl

@[simp]
theorem orElseO_none {α : Type} (o : Option α) : orElseO none o = o := rfl

@[simp]
theorem orElseO_none_right {α : Type} (o : Option α) : orElseO o none = o := by
  cases o <;> rfl

theorem lookupA_insertA {α : Type} (m : List (String × α)) (k : String)
    (v : α) (j : String) :
    lookupA (insertA m k v) j = if j = k then some v else lookupA m j := by
  induction m with
  | nil => simp [insertA, lookupA]
  | cons kv rest ih =>
    obtain ⟨k1, v1⟩ := kv
    by_cases h1 : k1 = k
    · subst h1
      by_cases h2 : j = k1 <;> simp [insertA, lookupA, h2]
    · by_cases h2 : j = k1
      · subst h2
        simp [insertA, lookupA, h1, Ne.symm h1]
      · simp [insertA, lookupA, h1, h2, ih]

theorem lookupA_append {α : Type} (m1 m2 : List (String × α)) (k : String) :
    lookupA (m1 ++ m2) k = orElseO (lookupA m1 k) (lookupA m2 k) := by
  induction m1 with
  | nil => simp [lookupA]
  | cons kv rest ih =>
    by_cases h : k = kv.1
    · simp [lookupA, h]
    · simp [lookupA, h, ih]

theorem insertA_of_lookupA_none {α : Type} {m : List (String × α)}
    {k : String} (v : α) (h : lookupA m k = none) :
    insertA m k v = m ++ [(k, v)] := by
  induction m with
  | nil => simp [insertA]
  | cons kv rest ih =>
    obtain ⟨k1, v1⟩ := kv
    by_cases h1 : k = k1
    · simp [lookupA, h1] at h
    · simp [lookupA, h1] at h
      simp [insertA, Ne.symm h1, ih h]

theorem insertA_self {α : Type} {m : List (String × α)} {k : String}
    {v : α} (h : lookupA m k = some v) : insertA m k v = m := by
  induction m with
  | nil => simp [lookupA] at h
  | cons kv rest ih =>
    obtain ⟨k1, v1⟩ := kv
    by_cases h1 : k = k1
    · subst h1
      simp [lookupA] at h
      simp [insertA, h]
    · simp [lookupA, h1] at h
      simp [insertA, Ne.symm h1, ih h]

theorem insertA_insertA {α : Type} (m : List (String × α)) (k : String)
    (v w : α) : insertA (insertA m k v) k w = insertA m k w := by
  induction m with
  | nil => simp [insertA]
  | cons kv rest ih =>
    obtain ⟨k1, v1⟩ := kv
    by_cases h1 : k1 = k
    · simp [insertA, h1]
    · simp [insertA, h1, ih]

theorem insertA_append_cons {α : Type} (A B : List (String × α))
    (k : String) (v w : α) (h : k ∉ keysA A) :
    insertA (A ++ (k, w) :: B) k v = A ++ (k, v) :: B := by
  induction A with
  | nil => simp [insertA]
  | cons kv rest ih =>
    rw [keysA_cons] at h
    simp only [List.mem_cons] at h
    push_neg at h
    obtain ⟨k1, v1⟩ := kv
    simp [insertA, Ne.symm h.1, ih h.2]

theorem mem_keysA_of_lookupA_some {α : Type} {m : List (String × α)}
    {k : String} {v : α} (h : lookupA m k = some v) : k ∈ keysA m := by
  induction m with
  | nil => simp [lookupA] at h
  | cons kv rest ih =>
    rw [keysA_cons]
    by_cases h1 : k = kv.1
    · simp [h1]
    · simp [lookupA, h1] at h
      exact List.mem_cons_of_mem _ (ih h)

theorem lookupA_eq_none_of_not_mem_keysA {α : Type} {m : List (String × α)}
    {k : String} (h : k ∉ keysA m) : lookupA m k = none := by
  induction m with
  | nil => simp [lookupA]
  | cons kv rest ih =>
    rw [keysA_cons] at h
    simp only [List.mem_cons] at h
    push_neg at h
    simp [lookupA, h.1]
    exact ih h.2

theorem lookupA_some_mem {α : Type} {m : List (String × α)} {k : String}
    {v : α} (h : lookupA m k = some v) : (k, v) ∈ m := by
  induction m with
  | nil => simp [lookupA] at h
  | cons kv rest ih =>
    by_cases h1 : k = kv.1
    · subst h1
      simp [lookupA] at h
      subst h
      left
    · simp [lookupA, h1] at h
      exact List.mem_cons_of_mem _ (ih h)

/-! ### Merge lemmas -/

theorem mergePois_ok (l : List (String × Poi)) (acc : List (String × Poi))
    (hnd : (keysA l).Nodup) (hdisj : ∀ kv ∈ l, lookupA acc kv.1 = none) :
    mergePois acc l = .ok (acc ++ l) := by
  induction l generalizing acc with
  | nil => simp [mergePois]
  | cons kv rest ih =>
    rw [keysA_cons] at hnd
    have hk : lookupA acc kv.1 = none := hdisj kv (List.mem_cons_self _ _)
    have hnd2 : (keysA rest).Nodup := hnd.of_cons
    have hknr : kv.1 ∉ keysA rest := by
      intro hmem
      exact (List.nodup_cons.mp hnd).1 hmem
    have hdisj2 : ∀ kv2 ∈ rest, lookupA (acc ++ [kv]) kv2.1 = none := by
      intro kv2 hmem
      rw [lookupA_append, hdisj kv2 (List.mem_cons_of_mem _ hmem)]
      have hne : ¬ kv2.1 = kv.1 := by
        intro hh
        exact hknr (hh ▸ List.mem_map_of_mem Prod.fst hmem)
      simp [lookupA, hne]
    simp only [mergePois, mergePoisStep, hk]
    rw [ih (acc ++ [kv]) hnd2 hdisj2]
    simp

theorem mergePois_conflict (l : List (String × Poi))
    (acc : List (String × Poi)) (hnd : (keysA l).Nodup)
    (hex : ∃ kv ∈ l, lookupA acc kv.1 ≠ none) :
    ∃ i, lookupA acc i ≠ none ∧ i ∈ keysA l ∧
      mergePois acc l = .error ("POI with id " ++ i ++ " already in the model") := by
  induction l generalizing acc with
  | nil => simp at hex
  | cons kv rest ih =>
    rw [keysA_cons] at hnd
    have hknr : kv.1 ∉ keysA rest := (List.nodup_cons.mp hnd).1
    by_cases hk : lookupA acc kv.1 = none
    · have hex2 : ∃ kv2 ∈ rest, lookupA (acc ++ [kv]) kv2.1 ≠ none := by
        obtain ⟨kv2, hmem, hne⟩ := hex
        rcases List.mem_cons.mp hmem with heq | hmem2
        · exact absurd (heq ▸ hk) hne
        · refine ⟨kv2, hmem2, ?_⟩
          rw [lookupA_append]
          intro hcontra
          cases hl : lookupA acc kv2.1 with
          | none => exact hne hl
          | some v => rw [hl] at hcontra; simp at hcontra
      obtain ⟨i, hi1, hi2, hi3⟩ := ih (acc ++ [kv]) hnd.of_cons hex2
      have hik : ¬ i = kv.1 := fun hh => hknr (hh ▸ hi2)
      refine ⟨i, ?_, List.mem_cons_of_mem _ hi2, ?_⟩
      · rw [lookupA_append] at hi1
        intro hcontra
        rw [hcontra] at hi1
        simp [lookupA, hik] at hi1
      · simp only [mergePois, mergePoisStep, hk]
        exact hi3
    · obtain ⟨v, hv⟩ := Option.ne_none_iff_exists.mp hk
      refine ⟨kv.1, hk, List.mem_cons_self _ _, ?_⟩
      simp only [mergePois, mergePoisStep, ← hv]

theorem mergePois_preserves {P : String × Poi → Prop}
    (l : List (String × Poi)) (acc r : List (String × Poi))
    (hacc : ∀ kv ∈ acc, P kv) (hl : ∀ kv ∈ l, P kv)
    (h : mergePois acc l = .ok r) : ∀ kv ∈ r, P kv := by
  induction l generalizing acc with
  | nil =>
    simp only [mergePois] at h
    cases h
    exact hacc
  | cons kv rest ih =>
    simp only [mergePois, mergePoisStep] at h
    cases hk : lookupA acc kv.1 with
    | some v => rw [hk] at h; simp at h
    | none =>
      rw [hk] at h
      simp only at h
      refine ih (acc ++ [kv]) ?_ (fun kv2 hmem => hl kv2 (List.mem_cons_of_mem _ hmem)) h
      intro kv2 hmem
      rcases List.mem_append.mp hmem with hmem2 | hmem2
      · exact hacc kv2 hmem2
      · rw [List.mem_singleton.mp hmem2]
        exact hl kv (List.mem_cons_self _ _)

theorem mergeTypes_ok (l : List (String × PoiType))
    (acc : List (String × PoiType)) (hnd : (keysA l).Nodup)
    (hagree : ∀ kv ∈ l, ∀ t, lookupA acc kv.1 = some t → t = kv.2) :
    ∃ r, mergeTypes acc l = .ok r ∧
      ∀ i, lookupA r i = orElseO (lookupA acc i) (lookupA l i) := by
  induction l generalizing acc with
  | nil =>
    refine ⟨acc, rfl, fun i => ?_⟩
    cases h : lookupA acc i <;> simp [lookupA, h]
  | cons kv rest ih =>
    rw [keysA_cons] at hnd
    have hknr : kv.1 ∉ keysA rest := (List.nodup_cons.mp hnd).1
    cases hk : lookupA acc kv.1 with
    | some t =>
      have ht : t = kv.2 := hagree kv (List.mem_cons_self _ _) t hk
      subst ht
      obtain ⟨r, hr1, hr2⟩ := ih acc hnd.of_cons
        (fun kv2 hmem t2 ht2 => hagree kv2 (List.mem_cons_of_mem _ hmem) t2 ht2)
      refine ⟨r, ?_, fun i => ?_⟩
      · simp only [mergeTypes, mergeTypesStep, hk, if_pos rfl]
        exact hr1
      · rw [hr2 i]
        by_cases hik : i = kv.1
        · subst hik
          rw [hk]
          simp [lookupA]
        · simp [lookupA, hik]
    | none =>
      have hagree2 : ∀ kv2 ∈ rest, ∀ t2,
          lookupA (acc ++ [kv]) kv2.1 = some t2 → t2 = kv2.2 := by
        intro kv2 hmem t2 ht2
        have hne : ¬ kv2.1 = kv.1 := by
          intro hh
          exact hknr (hh ▸ List.mem_map_of_mem Prod.fst hmem)
        rw [lookupA_append] at ht2
        simp [lookupA, hne] at ht2
        cases hl2 : lookupA acc kv2.1 with
        | none => rw [hl2] at ht2; simp at ht2
        | some t3 =>
          rw [hl2] at ht2
          simp at ht2
          exact hagree kv2 (List.mem_cons_of_mem _ hmem) t2 (ht2 ▸ hl2)
      obtain ⟨r, hr1, hr2⟩ := ih (acc ++ [kv]) hnd.of_cons hagree2
      refine ⟨r, ?_, fun i => ?_⟩
      · simp only [mergeTypes, mergeTypesStep, hk]
        exact hr1
      · rw [hr2 i, lookupA_append]
        by_cases hik : i = kv.1
        · subst hik
          rw [hk]
          simp [lookupA]
        · simp [lookupA, hik]

theorem mergeTypes_conflict (l : List (String × PoiType))
    (acc : List (String × PoiType)) (hnd : (keysA l).Nodup)
    (hex : ∃ kv ∈ l, ∃ t, lookupA acc kv.1 = some t ∧ t ≠ kv.2) :
    ∃ i t t2, lookupA acc i = some t ∧ lookupA l i = some t2 ∧ t ≠ t2 ∧
      mergeTypes acc l =
        .error ("Trying to override POI Type with id " ++ i) := by
  induction l generalizing acc with
  | nil => simp at hex
  | cons kv rest ih =>
    rw [keysA_cons] at hnd
    have hknr : kv.1 ∉ keysA rest := (List.nodup_cons.mp hnd).1
    cases hk : lookupA acc kv.1 with
    | some t =>
      by_cases heq : t = kv.2
      · subst heq
        have hex2 : ∃ kv2 ∈ rest, ∃ t2, lookupA acc kv2.1 = some t2 ∧ t2 ≠ kv2.2 := by
          obtain ⟨kv2, hmem, t2, ht2, hne⟩ := hex
          rcases List.mem_cons.mp hmem with rfl | hmem2
          · rw [hk] at ht2
            cases ht2
            exact absurd rfl hne
          · exact ⟨kv2, hmem2, t2, ht2, hne⟩
        obtain ⟨i, t1, t2, hi1, hi2, hi3, hi4⟩ := ih acc hnd.of_cons hex2
        have hik : ¬ i = kv.1 := by
          intro hh
          exact hknr (hh ▸ mem_keysA_of_lookupA_some hi2)
        refine ⟨i, t1, t2, hi1, ?_, hi3, ?_⟩
        · simp [lookupA, hik, hi2]
        · simp only [mergeTypes, mergeTypesStep, hk, if_pos rfl]
          exact hi4
      · refine ⟨kv.1, t, kv.2, hk, ?_, heq, ?_⟩
        · simp [lookupA]
        · simp only [mergeTypes, mergeTypesStep, hk, if_neg heq]
    | none =>
      have hex2 : ∃ kv2 ∈ rest, ∃ t2,
          lookupA (acc ++ [kv]) kv2.1 = some t2 ∧ t2 ≠ kv2.2 := by
        obtain ⟨kv2, hmem, t2, ht2, hne⟩ := hex
        rcases List.mem_cons.mp hmem with rfl | hmem2
        · rw [hk] at ht2; simp at ht2
        · refine ⟨kv2, hmem2, t2, ?_, hne⟩
          rw [lookupA_append, ht2]
          simp
      obtain ⟨i, t1, t2, hi1, hi2, hi3, hi4⟩ := ih (acc ++ [kv]) hnd.of_cons hex2
      have hik : ¬ i = kv.1 := by
        intro hh
        exact hknr (hh ▸ mem_keysA_of_lookupA_some hi2)
      refine ⟨i, t1, t2, ?_, ?_, hi3, ?_⟩
      · rw [lookupA_append] at hi1
        cases hl2 : lookupA acc i with
        | none =>
          rw [hl2] at hi1
          simp [lookupA, hik] at hi1
        | some t3 =>
          rw [hl2] at hi1
          simp at hi1
          rw [hi1]
      · simp [lookupA, hik, hi2]
      · simp only [mergeTypes, mergeTypesStep, hk]
        exact hi4

theorem mergeTypes_preserves {P : String × PoiType → Prop}
    (l : List (String × PoiType)) (acc r : List (String × PoiType))
    (hacc : ∀ kv ∈ acc, P kv) (hl : ∀ kv ∈ l, P kv)
    (h : mergeTypes acc l = .ok r) : ∀ kv ∈ r, P kv := by
  induction l generalizing acc with
  | nil =>
    simp only [mergeTypes] at h
    cases h
    exact hacc
  | cons kv rest ih =>
    simp only [mergeTypes, mergeTypesStep] at h
    cases hk : lookupA acc kv.1 with
    | some t =>
      rw [hk] at h
      simp only at h
      by_cases heq : t = kv.2
      · rw [if_pos heq] at h
        simp only at h
        exact ih acc hacc (fun kv2 hmem => hl kv2 (List.mem_cons_of_mem _ hmem)) h
      · rw [if_neg heq] at h
        simp at h
    | none =>
      rw [hk] at h
      simp only at h
      refine ih (acc ++ [kv]) ?_ (fun kv2 hmem => hl kv2 (List.mem_cons_of_mem _ hmem)) h
      intro kv2 hmem
      rcases List.mem_append.mp hmem with hmem2 | hmem2
      · exact hacc kv2 hmem2
      · rw [List.mem_singleton.mp hmem2]
        exact hl kv (List.mem_cons_self _ _)

theorem lookupA_isSome_of_mem_keysA {α : Type} {m : List (String × α)}
    {k : String} (h : k ∈ keysA m) : ∃ v, lookupA m k = some v := by
  induction m with
  | nil => simp at h
  | cons kv rest ih =>
    by_cases h1 : k = kv.1
    · exact ⟨kv.2, by simp [lookupA, h1]⟩
    · rw [keysA_cons] at h
      rcases List.mem_cons.mp h with h2 | h2
      · exact absurd h2 h1
      · obtain ⟨v, hv⟩ := ih h2
        exact ⟨v, by simp [lookupA, h1, hv]⟩

/-! ### Claim theorems: coordinates and boolean encoding -/

/-- C6: `is_default` holds exactly when both longitude and latitude are
zero, and `is_valid` holds exactly when the coordinate is not default,
the latitude lies in [-90, 90] and the longitude in [-180, 180]; in
particular `is_valid` is false at (0,0), true at (2.35, 48.85), false
at (200, 48.85) and false at (2.35, 95). -/
theorem coord_is_valid_spec :
    (∀ c : Coord, c.is_default = true ↔ (c.lon = 0 ∧ c.lat = 0)) ∧
    (∀ c : Coord, c.is_valid = true ↔
      (c.is_default = false ∧ (-90 ≤ c.lat ∧ c.lat ≤ 90) ∧
        (-180 ≤ c.lon ∧ c.lon ≤ 180))) ∧
    (Coord.new 0 0).is_valid = false ∧
    (Coord.new 2.35 48.85).is_valid = true ∧
    (Coord.new 200 48.85).is_valid = false ∧
    (Coord.new 2.35 95).is_valid = false := by
  refine ⟨fun c => ?_, fun c => ?_,
    by norm_num [Coord.is_valid, Coord.is_default, Coord.new],
    by norm_num [Coord.is_valid, Coord.is_default, Coord.new],
    by norm_num [Coord.is_valid, Coord.is_default, Coord.new],
    by norm_num [Coord.is_valid, Coord.is_default, Coord.new]⟩
  · simp only [Coord.is_default, Bool.and_eq_true, decide_eq_true_iff]
    tauto
  · simp only [Coord.is_valid, Bool.and_eq_true, Bool.not_eq_true',
      decide_eq_true_iff]
    tauto

/-- C2 counterexample: a `poi_visible` field holding "2" — neither 0 nor
1 — does not fail to load: `de_from_u8` decodes it to `true` and the
whole raw row decodes successfully. -/
theorem de_from_u8_two_ok :
    de_from_u8 "2" = Except.ok true ∧
    RawPoiRecord.decode
      { poi_id := "p1", poi_type_id := "t1", poi_name := "n", poi_lat := 1,
        poi_lon := 1, poi_weight := 0, poi_visible := "2" } =
      Except.ok
        { id := "p1", type_id := "t1", name := "n", lat := 1, lon := 1,
          weight := 0, visible := true } :=
  ⟨by decide, by decide⟩

/-- C2 amended: `visible=false` serializes `poi_visible` as the integer
0 and `visible=true` as 1 (never a textual boolean); on load, 0 decodes
to `false` and 1 to `true` (the encoding round-trips); a field value
that parses as any nonzero `u8` decodes to `true` rather than failing,
and only a field value that fails the `u8` parse fails with a format
error. -/
theorem boolean_encoding :
    (∀ r : PoiRecord, r.toRaw.poi_visible = if r.visible then "1" else "0") ∧
    de_from_u8 "0" = Except.ok false ∧
    de_from_u8 "1" = Except.ok true ∧
    (∀ r : PoiRecord, RawPoiRecord.decode r.toRaw = Except.ok r) ∧
    (∀ s i, parse_u8 s = Except.ok i → i ≠ 0 → de_from_u8 s = Except.ok true) ∧
    (∀ s e, parse_u8 s = Except.error e → de_from_u8 s = Except.error e) := by
  have e0 : de_from_u8 (toString (ser_from_bool false)) = Except.ok false := by
    decide
  have e1 : de_from_u8 (toString (ser_from_bool true)) = Except.ok true := by
    decide
  refine ⟨fun r => ?_, by decide, by decide, fun r => ?_, ?_, ?_⟩
  · cases hv : r.visible <;>
      simp [PoiRecord.toRaw, ser_from_bool, hv,
        (by decide : toString (0 : Nat) = "0"),
        (by decide : toString (1 : Nat) = "1")]
  · obtain ⟨id, tid, nm, lat, lon, w, vis⟩ := r
    cases vis
    · simp [RawPoiRecord.decode, PoiRecord.toRaw, e0]
    · simp [RawPoiRecord.decode, PoiRecord.toRaw, e1]
  · intro s i hp hi
    simp [de_from_u8, hp, hi]
  · intro s e hp
    simp [de_from_u8, hp]

/-- Witness for `boolean_encoding` at concrete inputs: "37" parses as
the nonzero u8 37 and decodes to `true`; "x" fails the u8 parse and
fails to decode with the same error. -/
theorem boolean_encoding_witness :
    parse_u8 "37" = Except.ok 37 ∧ (37 : Nat) ≠ 0 ∧
    de_from_u8 "37" = Except.ok true ∧
    parse_u8 "x" = Except.error "err invalid u8 field: x" ∧
    de_from_u8 "x" = Except.error "err invalid u8 field: x" :=
  ⟨by decide, by decide,
    boolean_encoding.2.2.2.2.1 "37" 37 (by decide) (by decide),
    by decide,
    boolean_encoding.2.2.2.2.2 "x" "err invalid u8 field: x" (by decide)⟩

/-! ### Claim theorems: merge -/

/-- C3: if some id is a key of both Models' `pois`, `try_merge` fails
with a conflict error naming a shared id — no Poi fields are compared
(the stored values are arbitrary, identical ones included). -/
theorem try_merge_poi_conflict (a b : Model)
    (hnd : (keysA b.pois).Nodup)
    (hshared : ∃ id p q, lookupA a.pois id = some p ∧
      lookupA b.pois id = some q) :
    ∃ i p q, lookupA a.pois i = some p ∧ lookupA b.pois i = some q ∧
      a.try_merge b =
        Except.error ("POI with id " ++ i ++ " already in the model") := by
  obtain ⟨id, p, q, hp, hq⟩ := hshared
  have hex : ∃ kv ∈ b.pois, lookupA a.pois kv.1 ≠ none :=
    ⟨(id, q), lookupA_some_mem hq, by rw [hp]; simp⟩
  obtain ⟨i, hi1, hi2, hi3⟩ := mergePois_conflict b.pois a.pois hnd hex
  obtain ⟨p2, hp2⟩ := Option.ne_none_iff_exists.mp hi1
  obtain ⟨q2, hq2⟩ := lookupA_isSome_of_mem_keysA hi2
  refine ⟨i, p2, q2, hp2.symm, hq2, ?_⟩
  simp only [Model.try_merge, hi3]

/-- Witness for `try_merge_poi_conflict`: `modelA` and `modelA2` share
the POI id "p1" (with identical Poi values) and their merge fails. -/
theorem try_merge_poi_conflict_witness :
    (keysA modelA2.pois).Nodup ∧
    (∃ i p q, lookupA modelA.pois i = some p ∧
      lookupA modelA2.pois i = some q ∧
      modelA.try_merge modelA2 =
        Except.error ("POI with id " ++ i ++ " already in the model")) :=
  ⟨by decide, try_merge_poi_conflict modelA modelA2 (by decide)
    ⟨"p1", poiA, poiA, by decide, by decide⟩⟩

/-- C4: with disjoint POI ids (so the POI phase succeeds): a PoiType id
present in both operands always with equal values lets the merge
succeed keeping the existing entries, and a PoiType id with differing
values makes `try_merge` fail naming a conflicting id. -/
theorem try_merge_poi_type_rules (a b : Model)
    (hndp : (keysA b.pois).Nodup) (hndt : (keysA b.poi_types).Nodup)
    (hdisj : ∀ kv ∈ b.pois, lookupA a.pois kv.1 = none) :
    ((∀ kv ∈ b.poi_types, ∀ t, lookupA a.poi_types kv.1 = some t → t = kv.2) →
      ∃ m2, a.try_merge b = Except.ok m2 ∧
        ∀ i t, lookupA a.poi_types i = some t →
          lookupA m2.poi_types i = some t) ∧
    ((∃ i t t2, lookupA a.poi_types i = some t ∧
        lookupA b.poi_types i = some t2 ∧ t ≠ t2) →
      ∃ i t t2, lookupA a.poi_types i = some t ∧
        lookupA b.poi_types i = some t2 ∧ t ≠ t2 ∧
        a.try_merge b =
          Except.error ("Trying to override POI Type with id " ++ i)) := by
  have hpois := mergePois_ok b.pois a.pois hndp hdisj
  constructor
  · intro hagree
    obtain ⟨r, hr1, hr2⟩ := mergeTypes_ok b.poi_types a.poi_types hndt hagree
    refine ⟨⟨a.pois ++ b.pois, r⟩, ?_, ?_⟩
    · simp only [Model.try_merge, hpois, hr1]
    · intro i t ht
      show lookupA r i = some t
      rw [hr2 i, ht, orElseO_some]
  · rintro ⟨i, t, t2, ht, ht2, hne⟩
    have hex : ∃ kv ∈ b.poi_types, ∃ t3,
        lookupA a.poi_types kv.1 = some t3 ∧ t3 ≠ kv.2 :=
      ⟨(i, t2), lookupA_some_mem ht2, t, ht, hne⟩
    obtain ⟨i2, t3, t4, h1, h2, h3, h4⟩ :=
      mergeTypes_conflict b.poi_types a.poi_types hndt hex
    refine ⟨i2, t3, t4, h1, h2, h3, ?_⟩
    simp only [Model.try_merge, hpois, h4]

/-- Witness for `try_merge_poi_type_rules`: `modelA` against `modelD`
(disjoint POI ids, shared PoiType id "t1" mapped to different names). -/
theorem try_merge_poi_type_rules_witness :
    ((∀ kv ∈ modelD.poi_types, ∀ t,
        lookupA modelA.poi_types kv.1 = some t → t = kv.2) →
      ∃ m2, modelA.try_merge modelD = Except.ok m2 ∧
        ∀ i t, lookupA modelA.poi_types i = some t →
          lookupA m2.poi_types i = some t) ∧
    ((∃ i t t2, lookupA modelA.poi_types i = some t ∧
        lookupA modelD.poi_types i = some t2 ∧ t ≠ t2) →
      ∃ i t t2, lookupA modelA.poi_types i = some t ∧
        lookupA modelD.poi_types i = some t2 ∧ t ≠ t2 ∧
        modelA.try_merge modelD =
          Except.error ("Trying to override POI Type with id " ++ i)) :=
  try_merge_poi_type_rules modelA modelD (by decide) (by decide) (by decide)

/-- C5: merging Models with disjoint POI ids and agreeing PoiTypes
succeeds; the result's `pois` is the concatenation of the two inputs
(hence its size the sum of the two sizes and its lookups the union) and
its `poi_types` is the deduplicated (first-wins) union of the two keyed
maps. -/
theorem try_merge_disjoint_ok (a b : Model)
    (hndp : (keysA b.pois).Nodup) (hndt : (keysA b.poi_types).Nodup)
    (hdisj : ∀ kv ∈ b.pois, lookupA a.pois kv.1 = none)
    (hagree : ∀ kv ∈ b.poi_types, ∀ t,
      lookupA a.poi_types kv.1 = some t → t = kv.2) :
    ∃ m2, a.try_merge b = Except.ok m2 ∧
      m2.pois = a.pois ++ b.pois ∧
      m2.pois.length = a.pois.length + b.pois.length ∧
      (∀ i, lookupA m2.pois i =
        orElseO (lookupA a.pois i) (lookupA b.pois i)) ∧
      (∀ i, lookupA m2.poi_types i =
        orElseO (lookupA a.poi_types i) (lookupA b.poi_types i)) := by
  have hpois := mergePois_ok b.pois a.pois hndp hdisj
  obtain ⟨r, hr1, hr2⟩ := mergeTypes_ok b.poi_types a.poi_types hndt hagree
  refine ⟨⟨a.pois ++ b.pois, r⟩, ?_, rfl, ?_, ?_, ?_⟩
  · simp only [Model.try_merge, hpois, hr1]
  · simp
  · intro i
    exact lookupA_append a.pois b.pois i
  · exact hr2

/-- Witness for `try_merge_disjoint_ok`: `modelA` and `modelB` have
disjoint POI ids and disjoint PoiType ids; their merge succeeds with
two POIs. -/
theorem try_merge_disjoint_ok_witness :
    ∃ m2, modelA.try_merge modelB = Except.ok m2 ∧
      m2.pois = modelA.pois ++ modelB.pois ∧
      m2.pois.length = modelA.pois.length + modelB.pois.length ∧
      (∀ i, lookupA m2.pois i =
        orElseO (lookupA modelA.pois i) (lookupA modelB.pois i)) ∧
      (∀ i, lookupA m2.poi_types i =
        orElseO (lookupA modelA.poi_types i) (lookupA modelB.poi_types i)) :=
  try_merge_disjoint_ok modelA modelB (by decide) (by decide) (by decide)
    (by
      intro kv hmem t ht
      fin_cases hmem
      rw [lookupA_eq_none_of_not_mem_keysA (by decide)] at ht
      cases ht)

/-! ### Load lemmas: building the keyed maps -/

theorem map_orElseO {α β : Type} (f : α → β) (a b : Option α) :
    (orElseO a b).map f = orElseO (a.map f) (b.map f) := by
  cases a <;> rfl

theorem orElseO_assoc {α : Type} (a b c : Option α) :
    orElseO (orElseO a b) c = orElseO a (orElseO b c) := by
  cases a <;> rfl

theorem foldl_insertA_fresh {α ρ : Type} (key : ρ → String) (val : ρ → α) :
    ∀ (rows : List ρ) (acc : List (String × α)),
      (keysA acc ++ rows.map key).Nodup →
      rows.foldl (fun a r => insertA a (key r) (val r)) acc =
        acc ++ rows.map (fun r => (key r, val r)) := by
  intro rows
  induction rows with
  | nil =>
    intro acc _
    simp
  | cons r rest ih =>
    intro acc h
    rw [List.foldl_cons]
    have hk : key r ∉ keysA acc := by
      intro hmem
      rcases List.nodup_append.mp h with ⟨_, _, hdisj⟩
      exact hdisj hmem (by simp)
    rw [insertA_of_lookupA_none (val r) (lookupA_eq_none_of_not_mem_keysA hk)]
    have h2 : (keysA (acc ++ [(key r, val r)]) ++ rest.map key).Nodup := by
      rw [keysA_append, keysA_cons, keysA_nil]
      simpa [List.append_assoc] using h
    rw [ih (acc ++ [(key r, val r)]) h2]
    simp

theorem lookupA_foldl_insertA {α ρ : Type} (key : ρ → String) (val : ρ → α)
    (k : String) :
    ∀ (rows : List ρ) (acc : List (String × α)),
      lookupA (rows.foldl (fun a r => insertA a (key r) (val r)) acc) k =
        orElseO ((lastMatch (fun r => decide (key r = k)) rows).map val)
          (lookupA acc k) := by
  intro rows
  induction rows with
  | nil =>
    intro acc
    simp [lastMatch]
  | cons r rest ih =>
    intro acc
    rw [List.foldl_cons, ih (insertA acc (key r) (val r))]
    rw [lastMatch, map_orElseO, orElseO_assoc]
    congr 1
    rw [lookupA_insertA]
    by_cases hk : k = key r
    · simp [hk]
    · have hk2 : ¬ key r = k := fun hh => hk hh.symm
      simp [hk, hk2]

theorem foldl_insertA_forall {α ρ : Type} (key : ρ → String) (val : ρ → α)
    {P : String × α → Prop} (hval : ∀ r, P (key r, val r)) :
    ∀ (rows : List ρ) (acc : List (String × α)), (∀ kv ∈ acc, P kv) →
      ∀ kv ∈ rows.foldl (fun a r => insertA a (key r) (val r)) acc, P kv := by
  have hins : ∀ (m : List (String × α)) (k : String) (v : α),
      (∀ kv ∈ m, P kv) → P (k, v) → ∀ kv ∈ insertA m k v, P kv := by
    intro m
    induction m with
    | nil =>
      intro k v _ hkv kv hmem
      rw [insertA] at hmem
      rw [List.mem_singleton.mp hmem]
      exact hkv
    | cons kv1 rest ih =>
      intro k v hm hkv kv hmem
      rw [insertA] at hmem
      by_cases h1 : kv1.1 = k
      · rw [if_pos h1] at hmem
        rcases List.mem_cons.mp hmem with h2 | h2
        · rw [h2]; exact hkv
        · exact hm kv (List.mem_cons_of_mem _ h2)
      · rw [if_neg h1] at hmem
        rcases List.mem_cons.mp hmem with h2 | h2
        · rw [h2]; exact hm kv1 (List.mem_cons_self _ _)
        · exact ih k v (fun kv2 hmem2 => hm kv2 (List.mem_cons_of_mem _ hmem2))
            hkv kv h2
  intro rows
  induction rows with
  | nil =>
    intro acc hacc kv hmem
    exact hacc kv hmem
  | cons r rest ih =>
    intro acc hacc kv hmem
    rw [List.foldl_cons] at hmem
    exact ih (insertA acc (key r) (val r))
      (hins acc (key r) (val r) hacc (hval r)) kv hmem

theorem mem_keysA_insertA {α : Type} {m : List (String × α)} {k j : String}
    {v : α} (hjk : ¬ j = k) (h : j ∈ keysA (insertA m k v)) : j ∈ keysA m := by
  induction m with
  | nil =>
    rw [insertA, keysA_cons] at h
    rcases List.mem_cons.mp h with h2 | h2
    · exact absurd h2 hjk
    · simp at h2
  | cons kv rest ih =>
    rw [insertA] at h
    by_cases h1 : kv.1 = k
    · rw [if_pos h1, keysA_cons] at h
      rcases List.mem_cons.mp h with h2 | h2
      · exact absurd h2 hjk
      · rw [keysA_cons, h1]
        exact List.mem_cons_of_mem _ h2
    · rw [if_neg h1, keysA_cons] at h
      rcases List.mem_cons.mp h with h2 | h2
      · rw [keysA_cons, h2]
        exact List.mem_cons_self _ _
      · exact List.mem_cons_of_mem _ (ih h2)

theorem nodup_keysA_insertA {α : Type} :
    ∀ (m : List (String × α)) (k : String) (v : α), (keysA m).Nodup →
      (keysA (insertA m k v)).Nodup := by
  intro m
  induction m with
  | nil =>
    intro k v _
    simp [insertA]
  | cons kv rest ih =>
    intro k v h
    rw [keysA_cons] at h
    rw [insertA]
    by_cases h1 : kv.1 = k
    · rw [if_pos h1]
      rw [keysA_cons]
      rw [← h1]
      exact h
    · rw [if_neg h1]
      rw [keysA_cons]
      rw [List.nodup_cons] at h ⊢
      constructor
      · intro hmem
        exact h.1 (mem_keysA_insertA h1 hmem)
      · exact ih k v h.2

theorem loadPois_eq_of_nodup (recs : List PoiRecord)
    (h : (recs.map PoiRecord.id).Nodup) :
    loadPois recs = recs.map (fun r => (r.id, Poi.fromRecord r)) := by
  have := foldl_insertA_fresh PoiRecord.id Poi.fromRecord recs []
    (by simpa using h)
  simpa [loadPois] using this

theorem loadTypes_eq_of_nodup (recs : List PoiTypeRecord)
    (h : (recs.map PoiTypeRecord.id).Nodup) :
    loadTypes recs = recs.map (fun r => (r.id, PoiType.fromRecord r)) := by
  have := foldl_insertA_fresh PoiTypeRecord.id PoiType.fromRecord recs []
    (by simpa using h)
  simpa [loadTypes] using this

theorem lookupA_loadTypes (recs : List PoiTypeRecord) (i : String) :
    lookupA (loadTypes recs) i =
      (lastMatch (fun r => decide (r.id = i)) recs).map PoiType.fromRecord := by
  have := lookupA_foldl_insertA PoiTypeRecord.id PoiType.fromRecord i recs []
  simpa [loadTypes, lookupA] using this

theorem nodup_keysA_loadTypes (recs : List PoiTypeRecord) :
    (keysA (loadTypes recs)).Nodup := by
  have hgen : ∀ (rows : List PoiTypeRecord) (acc : List (String × PoiType)),
      (keysA acc).Nodup →
      (keysA (rows.foldl
        (fun a r => insertA a (PoiTypeRecord.id r) (PoiType.fromRecord r))
        acc)).Nodup := by
    intro rows
    induction rows with
    | nil => intro acc h; exact h
    | cons r rest ih =>
      intro acc h
      rw [List.foldl_cons]
      exact ih _ (nodup_keysA_insertA acc r.id (PoiType.fromRecord r) h)
  exact hgen recs [] (by simp)

/-! ### Load lemmas: the property rows -/

theorem applyProps_append (path : String) :
    ∀ (r1 r2 : List PoiProperty) (acc : List (String × Poi)),
      applyProps path acc (r1 ++ r2) =
        match applyProps path acc r1 with
        | .error e => .error e
        | .ok acc2 => applyProps path acc2 r2 := by
  intro r1
  induction r1 with
  | nil =>
    intro r2 acc
    simp [applyProps]
  | cons row rest ih =>
    intro r2 acc
    rw [List.cons_append]
    simp only [applyProps]
    cases hstep : insertPropertyRow path acc row with
    | error e => simp
    | ok acc2 => simp [ih r2 acc2]

theorem applyProps_dangling (path : String) :
    ∀ (rows : List PoiProperty) (acc : List (String × Poi)),
      (∃ row ∈ rows, lookupA acc row.poi_id = none) →
      ∃ i, (∃ row ∈ rows, row.poi_id = i) ∧ lookupA acc i = none ∧
        applyProps path acc rows =
          Except.error ("in file '" ++ path ++ "', cannot find poi '" ++ i
            ++ "' for property insertion") := by
  intro rows
  induction rows with
  | nil =>
    intro acc hex
    simp at hex
  | cons row rest ih =>
    intro acc hex
    cases hlk : lookupA acc row.poi_id with
    | none =>
      refine ⟨row.poi_id, ⟨row, List.mem_cons_self _ _, rfl⟩, hlk, ?_⟩
      simp only [applyProps, insertPropertyRow, hlk]
    | some poi =>
      have hex2 : ∃ row2 ∈ rest,
          lookupA (insertA acc row.poi_id
            { poi with properties := insertA poi.properties row.key row.value })
            row2.poi_id = none := by
        obtain ⟨row2, hmem, hnone⟩ := hex
        rcases List.mem_cons.mp hmem with rfl | hmem2
        · rw [hlk] at hnone
          cases hnone
        · refine ⟨row2, hmem2, ?_⟩
          rw [lookupA_insertA]
          have hne : ¬ row2.poi_id = row.poi_id := by
            intro hh
            rw [hh, hlk] at hnone
            cases hnone
          rw [if_neg hne]
          exact hnone
      obtain ⟨i, hi1, hi2, hi3⟩ := ih _ hex2
      have hne2 : ¬ i = row.poi_id := by
        intro hh
        rw [lookupA_insertA, if_pos hh] at hi2
        cases hi2
      refine ⟨i, ?_, ?_, ?_⟩
      · obtain ⟨row2, hmem, hid⟩ := hi1
        exact ⟨row2, List.mem_cons_of_mem _ hmem, hid⟩
      · rw [lookupA_insertA, if_neg hne2] at hi2
        exact hi2
      · simp only [applyProps, insertPropertyRow, hlk]
        exact hi3

theorem applyProps_propAt (path : String) (i k : String) :
    ∀ (rows : List PoiProperty) (acc pois2 : List (String × Poi)),
      applyProps path acc rows = Except.ok pois2 →
      propAt pois2 i k =
        orElseO
          ((lastMatch (fun row => decide (row.poi_id = i ∧ row.key = k))
            rows).map PoiProperty.value)
          (propAt acc i k) := by
  intro rows
  induction rows with
  | nil =>
    intro acc pois2 h
    simp only [applyProps] at h
    cases h
    simp [lastMatch]
  | cons row rest ih =>
    intro acc pois2 h
    simp only [applyProps, insertPropertyRow] at h
    cases hlk : lookupA acc row.poi_id with
    | none =>
      rw [hlk] at h
      simp at h
    | some poi =>
      rw [hlk] at h
      simp only at h
      rw [ih _ _ h, lastMatch, map_orElseO, orElseO_assoc]
      congr 1
      by_cases hi : i = row.poi_id
      · subst hi
        by_cases hk : k = row.key
        · subst hk
          simp [propAt, lookupA_insertA]
        · have hk2 : ¬ row.key = k := fun hh => hk hh.symm
          have hcond : ¬ (row.poi_id = row.poi_id ∧ row.key = k) := by
            rintro ⟨-, h2⟩
            exact hk h2.symm
          simp [propAt, lookupA_insertA, hlk, hcond, hk, hk2]
      · have hcond : ¬ (row.poi_id = i ∧ row.key = k) := by
          rintro ⟨h1, -⟩
          exact hi h1.symm
        simp [propAt, lookupA_insertA, hi, hcond]

theorem forall_insertA {α : Type} {P : String × α → Prop} :
    ∀ (m : List (String × α)) (k : String) (v : α),
      (∀ kv ∈ m, P kv) → P (k, v) → ∀ kv ∈ insertA m k v, P kv := by
  intro m
  induction m with
  | nil =>
    intro k v _ hkv kv hmem
    rw [insertA] at hmem
    rw [List.mem_singleton.mp hmem]
    exact hkv
  | cons kv1 rest ih =>
    intro k v hm hkv kv hmem
    rw [insertA] at hmem
    by_cases h1 : kv1.1 = k
    · rw [if_pos h1] at hmem
      rcases List.mem_cons.mp hmem with h2 | h2
      · rw [h2]; exact hkv
      · exact hm kv (List.mem_cons_of_mem _ h2)
    · rw [if_neg h1] at hmem
      rcases List.mem_cons.mp hmem with h2 | h2
      · rw [h2]; exact hm kv1 (List.mem_cons_self _ _)
      · exact ih k v (fun kv2 hmem2 => hm kv2 (List.mem_cons_of_mem _ hmem2))
          hkv kv h2

theorem applyProps_keyConsistent (path : String) :
    ∀ (rows : List PoiProperty) (acc r : List (String × Poi)),
      (∀ kv ∈ acc, kv.2.id = kv.1) →
      applyProps path acc rows = Except.ok r →
      ∀ kv ∈ r, kv.2.id = kv.1 := by
  intro rows
  induction rows with
  | nil =>
    intro acc r hacc h
    simp only [applyProps] at h
    cases h
    exact hacc
  | cons row rest ih =>
    intro acc r hacc h
    simp only [applyProps, insertPropertyRow] at h
    cases hlk : lookupA acc row.poi_id with
    | none =>
      rw [hlk] at h
      simp at h
    | some poi =>
      rw [hlk] at h
      simp only at h
      refine ih _ r ?_ h
      have hpoi : poi.id = row.poi_id := hacc (row.poi_id, poi) (lookupA_some_mem hlk)
      exact forall_insertA acc row.poi_id _ hacc hpoi

theorem applyProps_fill (path : String) :
    ∀ (todo : List (String × String)) (pois : List (String × Poi))
      (i : String) (cur : Poi),
      lookupA pois i = some cur →
      (todo.map Prod.fst).Nodup →
      (∀ pr ∈ todo, lookupA cur.properties pr.1 = none) →
      applyProps path pois (todo.map (fun pr => ⟨i, pr.1, pr.2⟩)) =
        Except.ok (insertA pois i
          { cur with properties := cur.properties ++ todo }) := by
  intro todo
  induction todo with
  | nil =>
    intro pois i cur hcur _ _
    simp only [List.map_nil, applyProps, List.append_nil]
    exact (congrArg Except.ok (insertA_self hcur)).symm
  | cons pr rest ih =>
    intro pois i cur hcur hnd hdisj
    rw [List.map_cons]
    simp only [applyProps, insertPropertyRow, hcur]
    have hfst : lookupA cur.properties pr.1 = none :=
      hdisj pr (List.mem_cons_self _ _)
    have hpr : pr.1 ∉ rest.map Prod.fst := (List.nodup_cons.mp hnd).1
    have hcur2 : lookupA (insertA pois i
        { cur with properties := insertA cur.properties pr.1 pr.2 }) i =
        some { cur with properties := insertA cur.properties pr.1 pr.2 } := by
      rw [lookupA_insertA, if_pos rfl]
    have hdisj2 : ∀ q ∈ rest, lookupA
        ({ cur with properties := insertA cur.properties pr.1 pr.2 } : Poi).properties
          q.1 = none := by
      intro q hq
      show lookupA (insertA cur.properties pr.1 pr.2) q.1 = none
      rw [insertA_of_lookupA_none pr.2 hfst, lookupA_append,
        hdisj q (List.mem_cons_of_mem _ hq), orElseO_none]
      have hne : ¬ q.1 = pr.1 := by
        intro hh
        exact hpr (hh ▸ List.mem_map_of_mem Prod.fst hq)
      simp [lookupA, hne]
    rw [ih (insertA pois i
        { cur with properties := insertA cur.properties pr.1 pr.2 }) i
        { cur with properties := insertA cur.properties pr.1 pr.2 }
        hcur2 (List.nodup_cons.mp hnd).2 hdisj2]
    rw [insertA_insertA]
    have hlist : (insertA cur.properties pr.1 pr.2) ++ rest =
        cur.properties ++ pr :: rest := by
      rw [insertA_of_lookupA_none pr.2 hfst]
      simp
    simp only [hlist]

theorem applyProps_restore (path : String) :
    ∀ (ps ctx : List (String × Poi)),
      (keysA (ctx ++ ps)).Nodup →
      (∀ kv ∈ ps, kv.2.id = kv.1) →
      (∀ kv ∈ ps, (keysA kv.2.properties).Nodup) →
      applyProps path (ctx ++ ps.map stripKV) (propRows ps) =
        Except.ok (ctx ++ ps) := by
  intro ps
  induction ps with
  | nil =>
    intro ctx _ _ _
    simp [propRows, applyProps]
  | cons kv rest ih =>
    intro ctx hnd hkc hpn
    rw [propRows, applyProps_append]
    have hid : kv.2.id = kv.1 := hkc kv (List.mem_cons_self _ _)
    have hctx : kv.1 ∉ keysA ctx := by
      rw [keysA_append, keysA_cons] at hnd
      rcases List.nodup_append.mp hnd with ⟨-, -, hdisj⟩
      intro hmem
      exact hdisj hmem (by simp)
    have hcur : lookupA (ctx ++ (kv :: rest).map stripKV) kv.2.id =
        some (stripP kv.2) := by
      rw [hid, List.map_cons, lookupA_append,
        lookupA_eq_none_of_not_mem_keysA hctx, orElseO_none]
      show lookupA ((kv.1, stripP kv.2) :: rest.map stripKV) kv.1 = _
      rw [lookupA, if_pos rfl]
    have hfill := applyProps_fill path kv.2.properties
      (ctx ++ (kv :: rest).map stripKV) kv.2.id (stripP kv.2) hcur
      (hpn kv (List.mem_cons_self _ _)) (fun pr _ => rfl)
    rw [hfill]
    simp only
    have hacc2 : insertA (ctx ++ (kv :: rest).map stripKV) kv.2.id
        ({ stripP kv.2 with
            properties := (stripP kv.2).properties ++ kv.2.properties } : Poi) =
        ctx ++ kv :: rest.map stripKV := by
      rw [hid, List.map_cons]
      show insertA (ctx ++ (kv.1, stripP kv.2) :: rest.map stripKV) kv.1 kv.2 = _
      rw [insertA_append_cons _ _ _ _ _ hctx]
    rw [hacc2, List.append_cons ctx kv (rest.map stripKV),
      List.append_cons ctx kv rest]
    exact ih (ctx ++ [kv]) (by simpa using hnd)
      (fun kv2 hmem => hkc kv2 (List.mem_cons_of_mem _ hmem))
      (fun kv2 hmem => hpn kv2 (List.mem_cons_of_mem _ hmem))

/-! ### Load inversion lemmas -/

theorem load_none_ok (path : String) (prs : List PoiRecord)
    (ptrs : List PoiTypeRecord) :
    load_model_from_path path prs ptrs none =
      Except.ok ⟨loadPois prs, loadTypes ptrs⟩ := rfl

theorem load_ok_poi_types {path : String} {prs : List PoiRecord}
    {ptrs : List PoiTypeRecord} {props : Option (List PoiProperty)}
    {m2 : Model} (h : load_model_from_path path prs ptrs props = Except.ok m2) :
    m2.poi_types = loadTypes ptrs := by
  cases props with
  | none =>
    rw [load_none_ok] at h
    obtain rfl := Except.ok.inj h
    rfl
  | some rows =>
    simp only [load_model_from_path] at h
    cases happ : applyProps path (loadPois prs) rows with
    | error e =>
      rw [happ] at h
      simp at h
    | ok pois2 =>
      rw [happ] at h
      simp only at h
      obtain rfl := Except.ok.inj h
      rfl

theorem load_some_ok_pois {path : String} {prs : List PoiRecord}
    {ptrs : List PoiTypeRecord} {rows : List PoiProperty} {m2 : Model}
    (h : load_model_from_path path prs ptrs (some rows) = Except.ok m2) :
    applyProps path (loadPois prs) rows = Except.ok m2.pois := by
  simp only [load_model_from_path] at h
  cases happ : applyProps path (loadPois prs) rows with
  | error e =>
    rw [happ] at h
    simp at h
  | ok pois2 =>
    rw [happ] at h
    simp only at h
    obtain rfl := Except.ok.inj h
    rfl

/-! ### Claim theorems: loading -/

/-- C7: loading an archive with "poi.txt" and "poi_type.txt" entries but
no "poi_properties.txt" entry succeeds, and every loaded Poi has an
empty property map. -/
theorem load_without_properties_ok (path : String) (prs : List PoiRecord)
    (ptrs : List PoiTypeRecord) :
    ∃ m2, Model.try_from_path path prs ptrs none = Except.ok m2 ∧
      ∀ kv ∈ m2.pois, kv.2.properties = [] := by
  refine ⟨⟨loadPois prs, loadTypes ptrs⟩, rfl, ?_⟩
  intro kv hmem
  exact @foldl_insertA_forall Poi PoiRecord PoiRecord.id Poi.fromRecord
    (fun kv => kv.2.properties = []) (fun r => rfl) prs [] (by simp) kv hmem

/-- C8: a property row whose `poi_id` matches no Poi loaded from
"poi.txt" makes the load fail with the referential error naming the
offending id and the source path; the row is never skipped. -/
theorem load_dangling_property_fails (path : String) (prs : List PoiRecord)
    (ptrs : List PoiTypeRecord) (rows : List PoiProperty)
    (hex : ∃ row ∈ rows, lookupA (loadPois prs) row.poi_id = none) :
    ∃ i, (∃ row ∈ rows, row.poi_id = i) ∧ lookupA (loadPois prs) i = none ∧
      Model.try_from_path path prs ptrs (some rows) =
        Except.error ("in file '" ++ path ++ "', cannot find poi '" ++ i
          ++ "' for property insertion") := by
  obtain ⟨i, hi1, hi2, hi3⟩ := applyProps_dangling path rows (loadPois prs) hex
  refine ⟨i, hi1, hi2, ?_⟩
  simp only [Model.try_from_path, load_model_from_path, hi3]

/-- Witness for `load_dangling_property_fails`: a single property row
for the unknown POI "ghost" against an empty POI table. -/
theorem load_dangling_property_fails_witness :
    (∃ row ∈ [(⟨"ghost", "k", "v"⟩ : PoiProperty)],
      lookupA (loadPois []) row.poi_id = none) ∧
    (∃ i, (∃ row ∈ [(⟨"ghost", "k", "v"⟩ : PoiProperty)], row.poi_id = i) ∧
      lookupA (loadPois []) i = none ∧
      Model.try_from_path "f.poi" [] [] (some [⟨"ghost", "k", "v"⟩]) =
        Except.error ("in file '" ++ "f.poi" ++ "', cannot find poi '" ++ i
          ++ "' for property insertion")) :=
  ⟨⟨⟨"ghost", "k", "v"⟩, by simp, rfl⟩,
    load_dangling_property_fails "f.poi" [] [] _
      ⟨⟨"ghost", "k", "v"⟩, by simp, rfl⟩⟩

/-- C9: duplicate PoiType ids inside "poi_type.txt" are not an error —
the loaded map keeps exactly one entry per id, the last row with that
id — and property rows with the same `poi_id` and key overwrite earlier
ones, keeping the last value for that key. -/
theorem load_last_wins :
    (∀ (path : String) (prs : List PoiRecord) (ptrs : List PoiTypeRecord)
        (props : Option (List PoiProperty)) (m2 : Model),
      Model.try_from_path path prs ptrs props = Except.ok m2 →
      (keysA m2.poi_types).Nodup ∧
      ∀ i, lookupA m2.poi_types i =
        (lastMatch (fun r => decide (r.id = i)) ptrs).map PoiType.fromRecord) ∧
    (∀ (path : String) (prs : List PoiRecord) (ptrs : List PoiTypeRecord)
        (rows : List PoiProperty) (m2 : Model),
      Model.try_from_path path prs ptrs (some rows) = Except.ok m2 →
      ∀ i k, propAt m2.pois i k =
        orElseO
          ((lastMatch (fun row => decide (row.poi_id = i ∧ row.key = k))
            rows).map PoiProperty.value)
          (propAt (loadPois prs) i k)) := by
  constructor
  · intro path prs ptrs props m2 h
    rw [load_ok_poi_types h]
    exact ⟨nodup_keysA_loadTypes ptrs, fun i => lookupA_loadTypes ptrs i⟩
  · intro path prs ptrs rows m2 h i k
    exact applyProps_propAt path i k rows (loadPois prs) m2.pois
      (load_some_ok_pois h)

/-- Witness for `load_last_wins`: a table with a duplicated PoiType id
and property rows with a duplicated key; the last rows win. -/
theorem load_last_wins_witness :
    Model.try_from_path "f.poi" [recP1] dupTypeRecs (some dupPropRows) =
      Except.ok loadedDup ∧
    (keysA loadedDup.poi_types).Nodup ∧
    lookupA loadedDup.poi_types "t1" =
      (lastMatch (fun r => decide (r.id = "t1")) dupTypeRecs).map
        PoiType.fromRecord ∧
    propAt loadedDup.pois "p1" "k" =
      orElseO
        ((lastMatch (fun row => decide (row.poi_id = "p1" ∧ row.key = "k"))
          dupPropRows).map PoiProperty.value)
        (propAt (loadPois [recP1]) "p1" "k") := by
  have hload : Model.try_from_path "f.poi" [recP1] dupTypeRecs
      (some dupPropRows) = Except.ok loadedDup := by decide
  exact ⟨hload,
    (load_last_wins.1 "f.poi" [recP1] dupTypeRecs (some dupPropRows)
      loadedDup hload).1,
    (load_last_wins.1 "f.poi" [recP1] dupTypeRecs (some dupPropRows)
      loadedDup hload).2 "t1",
    load_last_wins.2 "f.poi" [recP1] dupTypeRecs dupPropRows
      loadedDup hload "p1" "k"⟩

/-- C10: every Model returned by a load is key consistent (each entry's
value carries the entry's key as id), and `try_merge` preserves key
consistency of its two operands. -/
theorem key_consistency_invariant :
    (∀ (path : String) (prs : List PoiRecord) (ptrs : List PoiTypeRecord)
        (props : Option (List PoiProperty)) (m2 : Model),
      Model.try_from_path path prs ptrs props = Except.ok m2 →
      m2.keyConsistent) ∧
    (∀ (a b m2 : Model), a.keyConsistent → b.keyConsistent →
      a.try_merge b = Except.ok m2 → m2.keyConsistent) := by
  constructor
  · intro path prs ptrs props m2 h
    have htypes : m2.poi_types = loadTypes ptrs := load_ok_poi_types h
    have hpois : ∀ kv ∈ m2.pois, kv.2.id = kv.1 := by
      cases props with
      | none =>
        have h2 : load_model_from_path path prs ptrs none = Except.ok m2 := h
        rw [load_none_ok] at h2
        obtain rfl := Except.ok.inj h2
        exact @foldl_insertA_forall Poi PoiRecord PoiRecord.id Poi.fromRecord
          (fun kv => kv.2.id = kv.1) (fun r => rfl) prs [] (by simp)
      | some rows =>
        exact applyProps_keyConsistent path rows (loadPois prs) m2.pois
          (@foldl_insertA_forall Poi PoiRecord PoiRecord.id Poi.fromRecord
            (fun kv => kv.2.id = kv.1) (fun r => rfl) prs [] (by simp))
          (load_some_ok_pois h)
    refine ⟨hpois, ?_⟩
    rw [htypes]
    exact @foldl_insertA_forall PoiType PoiTypeRecord PoiTypeRecord.id
      PoiType.fromRecord (fun kv => kv.2.id = kv.1) (fun r => rfl) ptrs []
      (by simp)
  · intro a b m2 ha hb h
    simp only [Model.try_merge] at h
    cases hp : mergePois a.pois b.pois with
    | error e =>
      rw [hp] at h
      simp at h
    | ok mp =>
      rw [hp] at h
      simp only at h
      cases ht : mergeTypes a.poi_types b.poi_types with
      | error e =>
        rw [ht] at h
        simp at h
      | ok mt =>
        rw [ht] at h
        simp only at h
        obtain rfl := Except.ok.inj h
        exact ⟨mergePois_preserves b.pois a.pois mp ha.1 hb.1 hp,
          mergeTypes_preserves b.poi_types a.poi_types mt ha.2 hb.2 ht⟩

/-- Witness for `key_consistency_invariant`: a concrete load and a
concrete merge, both key consistent. -/
theorem key_consistency_invariant_witness :
    Model.try_from_path "f.poi" [recP1] dupTypeRecs (some dupPropRows) =
      Except.ok loadedDup ∧
    loadedDup.keyConsistent ∧
    modelA.keyConsistent ∧ modelB.keyConsistent ∧
    modelA.try_merge modelB = Except.ok mergedAB ∧
    mergedAB.keyConsistent := by
  have hload : Model.try_from_path "f.poi" [recP1] dupTypeRecs
      (some dupPropRows) = Except.ok loadedDup := by decide
  have hmerge : modelA.try_merge modelB = Except.ok mergedAB := by decide
  exact ⟨hload,
    key_consistency_invariant.1 "f.poi" [recP1] dupTypeRecs
      (some dupPropRows) loadedDup hload,
    ⟨by decide, by decide⟩, ⟨by decide, by decide⟩, hmerge,
    key_consistency_invariant.2 modelA modelB mergedAB
      ⟨by decide, by decide⟩ ⟨by decide, by decide⟩ hmerge⟩

/-! ### Claim theorem: round-trip -/

/-- C1: saving a well-formed Model and loading the produced archive
yields the same Model up to row-ordering normalization: the `pois` map
is reproduced exactly (same ids, names, coordinates, type ids, visible
flags, weights and property maps) and the `poi_types` map is a
permutation (same set) of the original. -/
theorem save_load_roundtrip (m : Model) (path : String)
    (hwf : m.WellFormed) :
    ∃ m2, Model.try_from_path path (Model.save_to_path m).poi_txt
        (Model.save_to_path m).poi_type_txt
        (some (Model.save_to_path m).poi_properties_txt) = Except.ok m2 ∧
      m2.pois = m.pois ∧ m2.poi_types.Perm m.poi_types := by
  obtain ⟨hndp, hndt, ⟨hkcp, hkct⟩, hprops⟩ := hwf
  have hids : ((m.pois.map (fun kv => PoiRecord.fromPoi kv.2)).map
      PoiRecord.id).Nodup := by
    rw [List.map_map]
    have heq : m.pois.map (PoiRecord.id ∘ fun kv => PoiRecord.fromPoi kv.2) =
        keysA m.pois :=
      List.map_congr_left (fun kv hmem => hkcp kv hmem)
    rw [heq]
    exact hndp
  have hload_pois : loadPois (m.pois.map (fun kv => PoiRecord.fromPoi kv.2)) =
      m.pois.map stripKV := by
    rw [loadPois_eq_of_nodup _ hids, List.map_map]
    refine List.map_congr_left (fun kv hmem => ?_)
    show (kv.2.id, stripP kv.2) = stripKV kv
    rw [stripKV, hkcp kv hmem]
  have hrestore : applyProps path (m.pois.map stripKV) (propRows m.pois) =
      Except.ok m.pois := by
    have hr := applyProps_restore path m.pois [] (by simpa using hndp)
      hkcp hprops
    simpa using hr
  have hperm : (sortTypes m.poi_types).Perm m.poi_types :=
    List.perm_insertionSort _ _
  have hkct2 : ∀ kv ∈ sortTypes m.poi_types, kv.2.id = kv.1 :=
    fun kv hmem => hkct kv (hperm.mem_iff.mp hmem)
  have hndt2 : (keysA (sortTypes m.poi_types)).Nodup :=
    ((hperm.map Prod.fst).nodup_iff).mpr hndt
  have htids : (((sortTypes m.poi_types).map
      (fun kv => PoiTypeRecord.fromPoiType kv.2)).map PoiTypeRecord.id).Nodup := by
    rw [List.map_map]
    have heq : (sortTypes m.poi_types).map
        (PoiTypeRecord.id ∘ fun kv => PoiTypeRecord.fromPoiType kv.2) =
        keysA (sortTypes m.poi_types) :=
      List.map_congr_left (fun kv hmem => hkct2 kv hmem)
    rw [heq]
    exact hndt2
  have hload_types : loadTypes ((sortTypes m.poi_types).map
      (fun kv => PoiTypeRecord.fromPoiType kv.2)) = sortTypes m.poi_types := by
    rw [loadTypes_eq_of_nodup _ htids, List.map_map]
    have heq : (sortTypes m.poi_types).map
        ((fun r => (r.id, PoiType.fromRecord r)) ∘
          fun kv => PoiTypeRecord.fromPoiType kv.2) =
        (sortTypes m.poi_types).map id :=
      List.map_congr_left (fun kv hmem => by
        show (kv.2.id, kv.2) = id kv
        rw [hkct2 kv hmem]
        rfl)
    rw [heq, List.map_id]
  refine ⟨⟨m.pois, sortTypes m.poi_types⟩, ?_, rfl, hperm⟩
  simp only [Model.try_from_path, Model.save_to_path, write_model_to_path,
    load_model_from_path]
  rw [hload_pois, hrestore]
  simp only
  rw [hload_types]

/-- Witness for `save_load_roundtrip`: `modelA` (one POI with one
property, one PoiType) is well formed and round-trips. -/
theorem save_load_roundtrip_witness :
    modelA.WellFormed ∧
    ∃ m2, Model.try_from_path "f.poi" (Model.save_to_path modelA).poi_txt
        (Model.save_to_path modelA).poi_type_txt
        (some (Model.save_to_path modelA).poi_properties_txt) = Except.ok m2 ∧
      m2.pois = modelA.pois ∧ m2.poi_types.Perm modelA.poi_types := by
  have hwf : modelA.WellFormed :=
    ⟨by decide, by decide, ⟨by decide, by decide⟩, by decide⟩
  exact ⟨hwf, save_load_roundtrip modelA "f.poi" hwf⟩

end NavitiaPoi
